import Mathlib

/-!
Verification of the offline transaction queue and synchronization engine
(`src/lib/offlineDb.ts` and `src/lib/syncEngine.ts`).

The local IndexedDB store of pending transfers is modelled as a list of
records with unique ids (the store's keyPath is `id`); each exported
storage operation is translated as a pure function on that list.  The
sync engine is modelled as a function of an environment (remote-call
outcomes and possible storage/remote exceptions) and an engine state,
producing a result (`Except` for a propagated exception), the new state,
and a trace of the observable operations it performed, in order.
-/

namespace OfflinePay

/-- Transaction status: `status ∈ \x7b"pending" | "syncing" | "failed"\x7d`. -/
inductive Status where
  | pending
  | syncing
  | failed
deriving DecidableEq, Repr

/-- `PendingTransaction` record from `offlineDb.ts`.  Amounts are JS numbers
used as (integral) currency amounts; they are modelled as `Int`. -/
structure PendingTransaction where
  id : String
  senderId : String
  receiverId : String
  receiverPhone : Option String := none
  amount : Int
  timestamp : Nat
  status : Status
  hash : String
  retryCount : Nat
  deviceId : String
  description : Option String := none
deriving DecidableEq, Repr

/-- The `pendingTransactions` object store (keyPath `id`). -/
abbrev Store := List PendingTransaction

/-- `CachedRecipient` record from `offlineDb.ts`. -/
structure CachedRecipient where
  id : String
  user_id : String
  display_name : Option String := none
  payment_id : String
  cached_at : Nat
deriving DecidableEq, Repr

/-- The `cachedRecipients` object store (keyPath `id`).  IndexedDB keeps
records in key order; the model keeps the list sorted by `id`. -/
abbrev RecipientStore := List CachedRecipient

/-! ### Decimal and hexadecimal rendering

JS template interpolation `${n}` renders a number in decimal, and
`n.toString(16)` renders it in lowercase hexadecimal.  Both are modelled
with fuel-based structural recursion so that the kernel can evaluate them. -/

/-- Digits of `n` in base `b` (most significant first), with fuel. -/
def digitsAux (b : Nat) : Nat → Nat → List Char
  | 0, _ => []
  | fuel + 1, n =>
    if n < b then [Nat.digitChar n]
    else digitsAux b fuel (n / b) ++ [Nat.digitChar (n % b)]

/-- Decimal digits of `n`, as produced by JS `${n}` for a natural number. -/
def decChars (n : Nat) : List Char := digitsAux 10 (n + 1) n

/-- Lowercase hexadecimal digits of `n`, as produced by JS `n.toString(16)`. -/
def hexChars (n : Nat) : List Char := digitsAux 16 (n + 1) n

/-- Decimal rendering of a JS number holding an integer value. -/
def intChars (a : Int) : List Char :=
  if a < 0 then '-' :: decChars a.natAbs else decChars a.natAbs

/-- `String.prototype.padStart(len, c)`. -/
def padStart (len : Nat) (c : Char) (s : List Char) : List Char :=
  List.replicate (len - s.length) c ++ s

/-! ### The integrity hash (`generateHash`) -/

/-- Truncation of an integer to a signed 32-bit value, as the JS bitwise
operators do. -/
def toInt32 (n : Int) : Int := (n + 2 ^ 31) % 2 ^ 32 - 2 ^ 31

/-- One step of the hash loop:
`hash = (hash << 5) - hash + char; hash = hash & hash`. -/
def hashStep (h : Int) (c : Char) : Int :=
  toInt32 (toInt32 (h * 32) - h + (c.toNat : Int))

/-- The full loop of `generateHash` over the data string's code units. -/
def hashLoop : Int → List Char → Int
  | h, [] => h
  | h, c :: cs => hashLoop (hashStep h c) cs

/-- The data string `` `${senderId}:${receiverId}:${amount}:${timestamp}:${deviceId}` ``
hashed by `generateHash`. -/
def hashData (senderId receiverId : String) (amount : Int) (timestamp : Nat)
    (deviceId : String) : List Char :=
  senderId.data ++ ':' :: receiverId.data ++ ':' :: intChars amount
    ++ ':' :: decChars timestamp ++ ':' :: deviceId.data

/-- `generateHash`: hash the data string, then
`Math.abs(hash).toString(16).padStart(8, "0")`. -/
def generateHash (senderId receiverId : String) (amount : Int) (timestamp : Nat)
    (deviceId : String) : String :=
  String.mk (padStart 8 '0'
    (hexChars (Int.natAbs (hashLoop 0 (hashData senderId receiverId amount timestamp deviceId)))))

/-- The locally generated identifier `` `tx-${timestamp}-${hash.slice(0, 8)}` ``. -/
def mkTxId (timestamp : Nat) (hash : String) : String :=
  String.mk ('t' :: 'x' :: '-' :: (decChars timestamp ++ '-' :: hash.data.take 8))

/-! ### Store operations (`offlineDb.ts`) -/

/-- `db.put` on a store with keyPath `id`: replace the record with the same
key if present, otherwise add the record. -/
def putTx (store : Store) (t : PendingTransaction) : Store :=
  if store.any (fun r => r.id = t.id) then
    store.map (fun r => if r.id = t.id then t else r)
  else
    store ++ [t]

/-- `db.get("pendingTransactions", id)`. -/
def getTx (store : Store) (id : String) : Option PendingTransaction :=
  store.find? (fun r => r.id = id)

/-- `deleteTransaction`: `db.delete("pendingTransactions", id)`. -/
def deleteTransaction (store : Store) (id : String) : Store :=
  store.filter (fun r => r.id ≠ id)

/-- The input of `addPendingTransaction`: a transaction without
`id`, `hash`, `status`, `retryCount`, `deviceId`, `timestamp`. -/
structure NewTransaction where
  senderId : String
  receiverId : String
  receiverPhone : Option String := none
  amount : Int
  description : Option String := none
deriving DecidableEq, Repr

/-- `addPendingTransaction`: build the full record (status `pending`,
retry count 0, current timestamp, device id), compute the integrity hash
and the identifier, and `put` it.  `deviceId` and `timestamp` are the
environment inputs (`getDeviceId()` and `Date.now()`). -/
def addPendingTransaction (store : Store) (tx : NewTransaction)
    (deviceId : String) (timestamp : Nat) : PendingTransaction × Store :=
  let hash := generateHash tx.senderId tx.receiverId tx.amount timestamp deviceId
  let transaction : PendingTransaction :=
    { id := mkTxId timestamp hash
      senderId := tx.senderId
      receiverId := tx.receiverId
      receiverPhone := tx.receiverPhone
      amount := tx.amount
      timestamp := timestamp
      status := .pending
      hash := hash
      retryCount := 0
      deviceId := deviceId
      description := tx.description }
  (transaction, putTx store transaction)

/-- `getPendingTransactions`: all records with status `pending`
(the `by-status` index). -/
def getPendingTransactions (store : Store) : List PendingTransaction :=
  store.filter (fun r => r.status = .pending)

/-- `updateTransactionStatus`: fetch by id; if present, set the status,
optionally increment the retry count, and `put` the record back.
No-op when the id is absent. -/
def updateTransactionStatus (store : Store) (id : String) (status : Status)
    (incrementRetry : Bool) : Store :=
  match getTx store id with
  | none => store
  | some tx =>
    putTx store { tx with
      status := status
      retryCount := if incrementRetry then tx.retryCount + 1 else tx.retryCount }

/-- The loop body of `clearSyncedTransactions`: delete each snapshot item
whose status is neither `pending` nor `syncing`. -/
def clearSyncedLoop : Store → List PendingTransaction → Store
  | store, [] => store
  | store, item :: rest =>
    clearSyncedLoop
      (if item.status ≠ .pending ∧ item.status ≠ .syncing then
        deleteTransaction store item.id
      else store) rest

/-- `clearSyncedTransactions` (the spec's `purgeFinished`): snapshot all
records, then delete those whose status is neither `pending` nor `syncing`. -/
def clearSyncedTransactions (store : Store) : Store :=
  clearSyncedLoop store store

/-- `getTodayOfflineTotal`: records of the sender (the `by-sender` index),
filtered to those created at or after the day boundary and not `failed`,
amounts summed by `reduce((sum, tx) => sum + tx.amount, 0)`.  The day
boundary (computed from the wall clock in the source) is a parameter. -/
def getTodayOfflineTotal (store : Store) (userId : String) (todayStart : Nat) : Int :=
  ((store.filter (fun r => r.senderId = userId)).filter
      (fun tx => todayStart ≤ tx.timestamp ∧ tx.status ≠ .failed)).foldl
    (fun sum tx => sum + tx.amount) 0

/-! ### Cached recipients -/

/-- Lexicographic code-unit comparison of key strings, the order IndexedDB
uses for string keys. -/
def strLtChars : List Char → List Char → Bool
  | [], [] => false
  | [], _ :: _ => true
  | _ :: _, [] => false
  | a :: as, b :: bs =>
    if a.toNat < b.toNat then true
    else if b.toNat < a.toNat then false
    else strLtChars as bs

/-- Key order on strings. -/
def strLt (a b : String) : Bool := strLtChars a.data b.data

/-- `db.put` on `cachedRecipients` (keyPath `id`), keeping the model list
in key order: replace on equal key, otherwise insert in `id` order. -/
def putRecipient (r : CachedRecipient) : RecipientStore → RecipientStore
  | [] => [r]
  | x :: xs =>
    if r.id = x.id then r :: xs
    else if strLt r.id x.id then r :: x :: xs
    else x :: putRecipient r xs

/-- The input of `cacheRecipient`: a record without `cached_at`. -/
structure NewRecipient where
  id : String
  user_id : String
  display_name : Option String := none
  payment_id : String
deriving DecidableEq, Repr

/-- `cacheRecipient`: `put` the record with `cached_at = Date.now()`. -/
def cacheRecipient (store : RecipientStore) (r : NewRecipient) (now : Nat) :
    RecipientStore :=
  putRecipient
    { id := r.id, user_id := r.user_id, display_name := r.display_name
      payment_id := r.payment_id, cached_at := now } store

/-- `getCachedRecipientByPaymentId`: all records of the `by-payment-id`
index entry (in key order), returning the first when nonempty. -/
def getCachedRecipientByPaymentId (store : RecipientStore) (paymentId : String) :
    Option CachedRecipient :=
  (store.filter (fun r => r.payment_id = paymentId)).head?

/-! ### Sync engine (`syncEngine.ts`)

`syncPendingTransactions` is modelled as a function of an environment
describing the outcome of every remote call and whether each awaited
operation rejects, together with an engine state (local store plus the
module-level `isSyncing` flag).  It returns the result (`Except.error`
when an exception propagates out of the pass), the new engine state, and
the ordered trace of observable operations. -/

/-- Observer notification phases of the `SyncCallback`. -/
inductive Phase where
  | syncing
  | success
  | error
deriving DecidableEq, Repr

/-- Observable operations performed by a drain pass, in order. -/
inductive Event where
  /-- `getPendingTransactions()` was called. -/
  | listPending
  /-- `updateTransactionStatus(id, status, incrementRetry)` was called. -/
  | updStatus (id : String) (status : Status) (incrementRetry : Bool)
  /-- The remote duplicate check was queried for `hash`. -/
  | dupCheck (hash : String)
  /-- `process_transaction` was invoked for the record `id` with `hash`. -/
  | processTx (id : String) (hash : String)
  /-- `deleteTransaction(id)` was called. -/
  | deleteTx (id : String)
  /-- The observer callback was notified. -/
  | notify (phase : Phase) (count : Nat)
deriving DecidableEq, Repr

/-- Trace of a drain pass. -/
abbrev Trace := List Event

/-- Environment of one drain pass: remote-call outcomes, and whether each
awaited storage or remote operation rejects (throws). -/
structure Env where
  /-- Result of the remote duplicate check for a hash (`existing` non-null). -/
  dup : String → Bool
  /-- The duplicate-check query rejects for this hash. -/
  dupThrows : String → Bool
  /-- The `process_transaction` RPC succeeds for this record. -/
  process : PendingTransaction → Bool
  /-- The mark-as-syncing `updateTransactionStatus` call rejects for this id. -/
  markSyncingThrows : String → Bool
  /-- The catch-branch `updateTransactionStatus` call rejects for this id. -/
  catchUpdateThrows : String → Bool
  /-- `deleteTransaction` rejects for this id. -/
  deleteThrows : String → Bool
  /-- `getPendingTransactions` rejects. -/
  listThrows : Bool

/-- Engine state: the local store and the module-level `isSyncing` guard. -/
structure EngineState where
  store : Store
  isSyncing : Bool
deriving Repr, DecidableEq

/-- Outcome of processing one record: `Except.error` when the exception
escapes the per-record catch, otherwise `ok true` (counted as synced) or
`ok false` (counted as failed); plus the store and the emitted events. -/
abbrev RecordOutcome := Except Unit Bool × Store × Trace

/-- The catch branch of the per-record loop:
`updateTransactionStatus(tx.id, tx.retryCount >= 2 ? "failed" : "pending", true)`,
then count the record as failed; if that update itself rejects, the
exception propagates out of the loop. -/
def syncCatch (env : Env) (tx : PendingTransaction) (store : Store) (tr : Trace) :
    RecordOutcome :=
  let st : Status := if tx.retryCount ≥ 2 then .failed else .pending
  let tr := tr ++ [.updStatus tx.id st true]
  if env.catchUpdateThrows tx.id then (.error (), store, tr)
  else (.ok false, updateTransactionStatus store tx.id st true, tr)

/-- Processing of a single pending record inside the drain loop. -/
def syncRecord (env : Env) (tx : PendingTransaction) (store : Store) :
    RecordOutcome :=
  let tr : Trace := [.updStatus tx.id .syncing false]
  if env.markSyncingThrows tx.id then syncCatch env tx store tr
  else
    let store := updateTransactionStatus store tx.id .syncing false
    let tr := tr ++ [.dupCheck tx.hash]
    if env.dupThrows tx.hash then syncCatch env tx store tr
    else if env.dup tx.hash then
      let tr := tr ++ [.deleteTx tx.id]
      if env.deleteThrows tx.id then syncCatch env tx store tr
      else (.ok true, deleteTransaction store tx.id, tr)
    else
      let tr := tr ++ [.processTx tx.id tx.hash]
      if env.process tx then
        let tr := tr ++ [.deleteTx tx.id]
        if env.deleteThrows tx.id then syncCatch env tx store tr
        else (.ok true, deleteTransaction store tx.id, tr)
      else syncCatch env tx store tr

/-- The drain loop over the fetched pending records, accumulating the
`synced`/`failed` counters; an escaping exception aborts the rest. -/
def syncLoop (env : Env) : List PendingTransaction → Store → Nat → Nat →
    Except Unit (Nat × Nat) × Store × Trace
  | [], store, synced, failed => (.ok (synced, failed), store, [])
  | tx :: rest, store, synced, failed =>
    match syncRecord env tx store with
    | (.ok true, store', ev) =>
      let (res, store'', tr) := syncLoop env rest store' (synced + 1) failed
      (res, store'', ev ++ tr)
    | (.ok false, store', ev) =>
      let (res, store'', tr) := syncLoop env rest store' synced (failed + 1)
      (res, store'', ev ++ tr)
    | (.error _, store', ev) => (.error (), store', ev)

/-- The body of `syncPendingTransactions` after the guard is taken
(the `try` block). -/
def syncBody (env : Env) (store : Store) :
    Except Unit (Nat × Nat) × Store × Trace :=
  if env.listThrows then (.error (), store, [.listPending])
  else
    let pending := getPendingTransactions store
    if pending.length = 0 then (.ok (0, 0), store, [.listPending])
    else
      let tr0 : Trace := [.listPending, .notify .syncing pending.length]
      match syncLoop env pending store 0 0 with
      | (.error _, store', tr) => (.error (), store', tr0 ++ tr)
      | (.ok (synced, failed), store', tr) =>
        let trEnd : Trace :=
          (if synced > 0 then [Event.notify .success synced] else [])
            ++ (if failed > 0 then [Event.notify .error failed] else [])
        (.ok (synced, failed), store', tr0 ++ tr ++ trEnd)

/-- `syncPendingTransactions` (the spec's `runSync`): bounce on the
`isSyncing` guard, otherwise take the guard, run the body, and release
the guard in `finally` — also when the body's exception propagates. -/
def syncPendingTransactions (env : Env) (s : EngineState) :
    Except Unit (Nat × Nat) × EngineState × Trace :=
  if s.isSyncing then (.ok (0, 0), s, [])
  else
    match syncBody env s.store with
    | (res, store', tr) => (res, ⟨store', false⟩, tr)

/-! ### Concrete sample data, used by the witness theorems -/

/-- A pending sample record. -/
def txA : PendingTransaction :=
  { id := "a", senderId := "s1", receiverId := "r1", amount := 100,
    timestamp := 10, status := .pending, hash := "h1", retryCount := 0,
    deviceId := "d1" }

/-- A failed sample record. -/
def txB : PendingTransaction :=
  { id := "b", senderId := "s1", receiverId := "r2", amount := 50,
    timestamp := 11, status := .failed, hash := "h2", retryCount := 3,
    deviceId := "d1" }

/-- A syncing sample record. -/
def txC : PendingTransaction :=
  { id := "c", senderId := "s2", receiverId := "r1", amount := 70,
    timestamp := 12, status := .syncing, hash := "h3", retryCount := 1,
    deviceId := "d2" }

/-- A pending sample record with two prior failures. -/
def txD : PendingTransaction :=
  { id := "e", senderId := "s2", receiverId := "r2", amount := 30,
    timestamp := 13, status := .pending, hash := "h4", retryCount := 2,
    deviceId := "d2" }

/-- A sample enqueue input. -/
def newTx1 : NewTransaction :=
  { senderId := "s1", receiverId := "r1", amount := 100 }

/-- A sample enqueue input agreeing with `newTx1` on sender, receiver and
amount but differing in the description. -/
def newTx2 : NewTransaction :=
  { senderId := "s1", receiverId := "r1", amount := 100,
    description := some "lunch" }

/-- A sample recipient-cache input. -/
def recX : NewRecipient := { id := "x", user_id := "u1", payment_id := "p1" }

/-- A sample recipient-cache input sharing `recX`'s payment identifier
under a different internal id. -/
def recY : NewRecipient := { id := "y", user_id := "u2", payment_id := "p1" }

/-- An environment where every remote call succeeds (no duplicates, the
process RPC succeeds) and no awaited operation rejects. -/
def happyEnv : Env :=
  { dup := fun _ => false, dupThrows := fun _ => false,
    process := fun _ => true, markSyncingThrows := fun _ => false,
    catchUpdateThrows := fun _ => false, deleteThrows := fun _ => false,
    listThrows := false }

/-- Key-order invariant of the model of the `cachedRecipients` store. -/
def SortedById (store : RecipientStore) : Prop :=
  store.Pairwise (fun a b => strLt a.id b.id = true)

/-- Value and weight of a most-significant-first decimal digit string. -/
def decVal : List Char → Nat × Nat
  | [] => (0, 1)
  | c :: cs => ((c.toNat - 48) * (decVal cs).2 + (decVal cs).1, 10 * (decVal cs).2)

/-- In a trace, every `process_transaction` invocation is preceded by a
remote duplicate check for the same integrity hash. -/
def DupBeforeProcess (tr : Trace) : Prop :=
  ∀ (k : Nat) (id h : String), tr[k]? = some (.processTx id h) →
    ∃ j, j < k ∧ tr[j]? = some (.dupCheck h)

/-! ### Helper lemmas about the store operations -/

theorem getTx_eq_some_of_mem {store : Store} {tx : PendingTransaction}
    (hnd : (store.map (fun r => r.id)).Nodup) (hmem : tx ∈ store) :
    getTx store tx.id = some tx := by
  unfold getTx
  cases hfind : store.find? (fun r => r.id = tx.id) with
  | none =>
    rw [List.find?_eq_none] at hfind
    have := hfind tx hmem
    simp at this
  | some r =>
    have hrid : r.id = tx.id := by simpa using List.find?_some hfind
    have hrm := List.mem_of_find?_eq_some hfind
    rw [List.inj_on_of_nodup_map hnd hrm hmem hrid]

/-- `updateTransactionStatus` in closed form on stores with unique ids:
the record with the given id gets the new status (and possibly a bumped
retry count), all other fields and records are untouched. -/
theorem updateTransactionStatus_eq_map (store : Store) (id : String)
    (st : Status) (inc : Bool) (hnd : (store.map (fun r => r.id)).Nodup) :
    updateTransactionStatus store id st inc =
      store.map (fun r =>
        if r.id = id then
          { r with status := st,
                   retryCount := if inc then r.retryCount + 1 else r.retryCount }
        else r) := by
  unfold updateTransactionStatus getTx
  cases hfind : store.find? (fun r => r.id = id) with
  | none =>
    rw [List.find?_eq_none] at hfind
    have hcongr : ∀ a ∈ store,
        (if a.id = id then
          ({ a with status := st,
                    retryCount := if inc then a.retryCount + 1 else a.retryCount } :
            PendingTransaction)
        else a) = a := by
      intro a ha
      have : ¬ a.id = id := by simpa using hfind a ha
      simp [this]
    rw [List.map_congr_left hcongr, List.map_id']
  | some tx =>
    have htxid : tx.id = id := by simpa using List.find?_some hfind
    have htxm := List.mem_of_find?_eq_some hfind
    show putTx store
        ({ tx with status := st,
                   retryCount := if inc then tx.retryCount + 1 else tx.retryCount }) =
      store.map _
    unfold putTx
    rw [if_pos (by
      rw [List.any_eq_true]
      exact ⟨tx, htxm, by simp⟩)]
    apply List.map_congr_left
    intro a ha
    by_cases hid : a.id = id
    · have : a = tx := List.inj_on_of_nodup_map hnd ha htxm (hid.trans htxid.symm)
      subst this
      simp [hid, htxid]
    · have : ¬ a.id = tx.id := fun h => hid (h.trans htxid)
      simp [hid, this]

theorem mem_putTx_self (store : Store) (t : PendingTransaction) :
    t ∈ putTx store t := by
  unfold putTx
  by_cases h : store.any (fun r => r.id = t.id)
  · rw [if_pos h]
    rw [List.any_eq_true] at h
    obtain ⟨r, hr, hid⟩ := h
    exact List.mem_map.2 ⟨r, hr, by simp [of_decide_eq_true hid]⟩
  · rw [if_neg h]
    simp

theorem mem_putTx_of_ne {store : Store} {r t : PendingTransaction}
    (hmem : r ∈ store) (hne : r.id ≠ t.id) : r ∈ putTx store t := by
  unfold putTx
  by_cases h : store.any (fun x => x.id = t.id)
  · rw [if_pos h]
    exact List.mem_map.2 ⟨r, hmem, by simp [hne]⟩
  · rw [if_neg h]
    exact List.mem_append_left _ hmem

/-- The loop of `clearSyncedTransactions` in closed form: a record
survives iff no snapshot item with its id was scheduled for deletion. -/
theorem clearSyncedLoop_eq (items : List PendingTransaction) :
    ∀ store : Store, clearSyncedLoop store items =
      store.filter (fun r =>
        !(items.any (fun it =>
          decide (it.status ≠ .pending ∧ it.status ≠ .syncing)
            && decide (it.id = r.id)))) := by
  induction items with
  | nil =>
    intro store
    rw [clearSyncedLoop, List.filter_eq_self.2]
    intro a _
    simp
  | cons it rest ih =>
    intro store
    rw [clearSyncedLoop]
    by_cases hdel : it.status ≠ .pending ∧ it.status ≠ .syncing
    · rw [if_pos hdel, ih]
      unfold deleteTransaction
      rw [List.filter_filter]
      apply List.filter_congr
      intro r _
      rw [Bool.eq_iff_iff]
      simp only [List.any_cons, Bool.and_eq_true, Bool.not_eq_true',
        Bool.or_eq_false_iff, Bool.and_eq_false_iff, decide_eq_true_eq,
        decide_eq_false_iff_not]
      constructor
      · rintro ⟨hany, hne⟩
        exact ⟨Or.inr (fun h => hne h.symm), hany⟩
      · rintro ⟨hh, hany⟩
        refine ⟨hany, ?_⟩
        rcases hh with h | h
        · exact absurd hdel h
        · exact fun he => h he.symm
    · rw [if_neg hdel, ih]
      apply List.filter_congr
      intro r _
      rw [Bool.eq_iff_iff]
      simp only [List.any_cons, Bool.or_eq_true, Bool.not_eq_true',
        Bool.or_eq_false_iff, Bool.and_eq_true, decide_eq_true_eq,
        Bool.and_eq_false_iff, decide_eq_false_iff_not]
      constructor
      · intro h
        exact ⟨Or.inl (fun hc => hdel hc), h⟩
      · intro h
        exact h.2

/-- C4. `purgeFinished` (`clearSyncedTransactions`) deletes exactly the
records whose status is neither `pending` nor `syncing`: on any store
with unique ids, a record is in the purged store iff it was in the store
and its status is `pending` or `syncing`; in particular every `failed`
record is removed and no `pending` or `syncing` record ever is. -/
theorem purgeFinished_deletes_exactly_finished (store : Store)
    (hnd : (store.map (fun r => r.id)).Nodup) :
    ∀ r, r ∈ clearSyncedTransactions store ↔
      r ∈ store ∧ (r.status = .pending ∨ r.status = .syncing) := by
  intro r
  unfold clearSyncedTransactions
  rw [clearSyncedLoop_eq, List.mem_filter]
  constructor
  · rintro ⟨hm, hb⟩
    refine ⟨hm, ?_⟩
    rw [Bool.not_eq_true', List.any_eq_false] at hb
    have hr := hb r hm
    simp only [Bool.and_eq_true, decide_eq_true_eq, not_and] at hr
    by_contra hcon
    push_neg at hcon
    exact hr ⟨hcon.1, hcon.2⟩ trivial
  · rintro ⟨hm, hst⟩
    refine ⟨hm, ?_⟩
    rw [Bool.not_eq_true', List.any_eq_false]
    intro it hit
    simp only [Bool.and_eq_true, decide_eq_true_eq, not_and]
    intro hdelp hid
    have : it = r := List.inj_on_of_nodup_map hnd hit hm hid
    subst this
    rcases hst with h | h
    · exact hdelp.1 h
    · exact hdelp.2 h

/-- C4 witness: on the store `[txA, txB, txC]` (pending, failed,
syncing), the failed record `txB` is purged while `txA` survives. -/
theorem purgeFinished_deletes_exactly_finished_witness :
    (txB ∈ clearSyncedTransactions [txA, txB, txC] ↔
      txB ∈ [txA, txB, txC] ∧ (txB.status = .pending ∨ txB.status = .syncing)) ∧
    (txA ∈ clearSyncedTransactions [txA, txB, txC] ↔
      txA ∈ [txA, txB, txC] ∧ (txA.status = .pending ∨ txA.status = .syncing)) :=
  ⟨purgeFinished_deletes_exactly_finished [txA, txB, txC] (by decide) txB,
   purgeFinished_deletes_exactly_finished [txA, txB, txC] (by decide) txA⟩

/-- C8. `setStatus` (`updateTransactionStatus`) is a no-op when the id is
absent, and otherwise only rewrites the status (and, when requested, the
retry count, by exactly one) of the record with that id, leaving all its
other fields and all other records unchanged. -/
theorem setStatus_frame (store : Store) (id : String) (st : Status)
    (inc : Bool) (hnd : (store.map (fun r => r.id)).Nodup) :
    ((∀ r ∈ store, r.id ≠ id) → updateTransactionStatus store id st inc = store) ∧
    updateTransactionStatus store id st inc =
      store.map (fun r =>
        if r.id = id then
          { r with status := st,
                   retryCount := if inc then r.retryCount + 1 else r.retryCount }
        else r) := by
  refine ⟨fun habs => ?_, updateTransactionStatus_eq_map store id st inc hnd⟩
  rw [updateTransactionStatus_eq_map store id st inc hnd]
  have hcongr : ∀ a ∈ store,
      (if a.id = id then
        ({ a with status := st,
                  retryCount := if inc then a.retryCount + 1 else a.retryCount } :
          PendingTransaction)
      else a) = a := by
    intro a ha
    simp [habs a ha]
  rw [List.map_congr_left hcongr, List.map_id']

/-- C8 witness: updating `"a"` to `failed` with a retry bump on
`[txA, txB]` rewrites exactly `txA`'s status and retry count. -/
theorem setStatus_frame_witness :
    ((∀ r ∈ [txA, txB], r.id ≠ "c") →
      updateTransactionStatus [txA, txB] "c" .failed true = [txA, txB]) ∧
    updateTransactionStatus [txA, txB] "c" .failed true =
      [txA, txB].map (fun r =>
        if r.id = "c" then
          { r with status := .failed, retryCount := r.retryCount + 1 }
        else r) := by
  have h := setStatus_frame [txA, txB] "c" .failed true (by decide)
  simpa using h


theorem foldl_add_amount (l : List PendingTransaction) (a : Int) :
    l.foldl (fun sum tx => sum + tx.amount) a =
      a + (l.map (fun tx => tx.amount)).sum := by
  induction l generalizing a with
  | nil => simp
  | cons x xs ih => simp [ih, add_assoc]

/-- C9. `dailyOfflineTotal` (`getTodayOfflineTotal`) returns the sum of
the amounts of exactly the queued transfers whose sender is the given
user, created at or after the day boundary, and whose status is not
`failed` (so `pending` and `syncing` records are included). -/
theorem dailyOfflineTotal_sums_exactly (store : Store) (userId : String)
    (todayStart : Nat) :
    getTodayOfflineTotal store userId todayStart =
      ((store.filter (fun tx =>
          decide (tx.senderId = userId ∧ todayStart ≤ tx.timestamp ∧
            tx.status ≠ .failed))).map (fun tx => tx.amount)).sum := by
  unfold getTodayOfflineTotal
  rw [List.filter_filter, foldl_add_amount, zero_add]
  congr 1
  congr 1
  apply List.filter_congr
  intro x _
  rw [Bool.eq_iff_iff]
  simp only [Bool.and_eq_true, decide_eq_true_eq]
  constructor
  · rintro ⟨⟨h1, h2⟩, h3⟩
    exact ⟨h3, h1, h2⟩
  · rintro ⟨h3, h1, h2⟩
    exact ⟨⟨h1, h2⟩, h3⟩

/-- C5. `enqueue` (`addPendingTransaction`) returns and persists a record
with status `pending` and retry count `0`; the integrity hash is a
function of exactly (sender, receiver, amount, timestamp, device) — two
enqueues agreeing on those five fields receive equal hashes even when
descriptions or receiver phones differ; and no later status update ever
rewrites an id or a hash (deletion only removes whole records). -/
theorem enqueue_contract :
    (∀ (store : Store) (tx : NewTransaction) (d : String) (t : Nat),
      (addPendingTransaction store tx d t).1.status = .pending ∧
      (addPendingTransaction store tx d t).1.retryCount = 0 ∧
      (addPendingTransaction store tx d t).1 ∈ (addPendingTransaction store tx d t).2) ∧
    (∀ (s1 s2 : Store) (tx1 tx2 : NewTransaction) (d1 d2 : String) (t1 t2 : Nat),
      tx1.senderId = tx2.senderId → tx1.receiverId = tx2.receiverId →
      tx1.amount = tx2.amount → t1 = t2 → d1 = d2 →
      (addPendingTransaction s1 tx1 d1 t1).1.hash =
        (addPendingTransaction s2 tx2 d2 t2).1.hash) ∧
    (∀ (store : Store) (id : String) (st : Status) (inc : Bool),
      (store.map (fun r => r.id)).Nodup →
      (updateTransactionStatus store id st inc).map (fun r => (r.id, r.hash)) =
        store.map (fun r => (r.id, r.hash))) ∧
    (∀ (store : Store) (id : String), List.Sublist (deleteTransaction store id) store) := by
  refine ⟨?_, ?_, ?_, ?_⟩
  · intro store tx d t
    exact ⟨rfl, rfl, mem_putTx_self store _⟩
  · intro s1 s2 tx1 tx2 d1 d2 t1 t2 hs hr ha ht hd
    simp only [addPendingTransaction, hs, hr, ha, ht, hd]
  · intro store id st inc hnd
    rw [updateTransactionStatus_eq_map store id st inc hnd, List.map_map]
    apply List.map_congr_left
    intro a _
    by_cases hid : a.id = id <;> simp [hid]
  · intro store id
    exact List.filter_sublist store

/-- C5 witness: enqueueing `newTx1` and `newTx2` (same sender, receiver
and amount, different description) at the same time on the same device
yields equal hashes; the enqueued record is pending with retry count 0;
a status update preserves every (id, hash) pair. -/
theorem enqueue_contract_witness :
    ((addPendingTransaction [] newTx1 "d1" 5).1.status = .pending ∧
      (addPendingTransaction [] newTx1 "d1" 5).1.retryCount = 0 ∧
      (addPendingTransaction [] newTx1 "d1" 5).1 ∈
        (addPendingTransaction [] newTx1 "d1" 5).2) ∧
    (addPendingTransaction [] newTx1 "d1" 5).1.hash =
      (addPendingTransaction [txA] newTx2 "d1" 5).1.hash ∧
    (updateTransactionStatus [txA, txB] "a" .failed true).map
        (fun r => (r.id, r.hash)) =
      [txA, txB].map (fun r => (r.id, r.hash)) :=
  ⟨enqueue_contract.1 [] newTx1 "d1" 5,
   enqueue_contract.2.1 [] [txA] newTx1 newTx2 "d1" "d1" 5 5 rfl rfl rfl rfl rfl,
   enqueue_contract.2.2.1 [txA, txB] "a" .failed true (by decide)⟩


/-! ### Order facts about the recipient-store key order -/

theorem strLtChars_irrefl : ∀ l, strLtChars l l = false := by
  intro l
  induction l with
  | nil => rfl
  | cons a as ih => simp [strLtChars, ih]

theorem strLtChars_trans : ∀ {a b c : List Char}, strLtChars a b = true →
    strLtChars b c = true → strLtChars a c = true := by
  intro a
  induction a with
  | nil =>
    intro b c hab hbc
    cases b with
    | nil => simp [strLtChars] at hab
    | cons y ys =>
      cases c with
      | nil => simp [strLtChars] at hbc
      | cons z zs => simp [strLtChars]
  | cons x xs ih =>
    intro b c hab hbc
    cases b with
    | nil => simp [strLtChars] at hab
    | cons y ys =>
      cases c with
      | nil => simp [strLtChars] at hbc
      | cons z zs =>
        simp only [strLtChars] at hab hbc ⊢
        by_cases hxy : x.toNat < y.toNat
        · by_cases hyz : y.toNat < z.toNat
          · rw [if_pos (show x.toNat < z.toNat by omega)]
          · rw [if_neg hyz] at hbc
            by_cases hzy : z.toNat < y.toNat
            · rw [if_pos hzy] at hbc
              exact absurd hbc (by simp)
            · rw [if_neg hzy] at hbc
              rw [if_pos (show x.toNat < z.toNat by omega)]
        · rw [if_neg hxy] at hab
          by_cases hyx : y.toNat < x.toNat
          · rw [if_pos hyx] at hab
            exact absurd hab (by simp)
          · rw [if_neg hyx] at hab
            by_cases hyz : y.toNat < z.toNat
            · rw [if_pos (show x.toNat < z.toNat by omega)]
            · rw [if_neg hyz] at hbc
              by_cases hzy : z.toNat < y.toNat
              · rw [if_pos hzy] at hbc
                exact absurd hbc (by simp)
              · rw [if_neg hzy] at hbc
                rw [if_neg (show ¬ x.toNat < z.toNat by omega),
                  if_neg (show ¬ z.toNat < x.toNat by omega)]
                exact ih hab hbc

theorem char_toNat_inj {a b : Char} (h : a.toNat = b.toNat) : a = b :=
  Char.ext (UInt32.toNat.inj h)

theorem strLtChars_total : ∀ a b : List Char, a = b ∨
    strLtChars a b = true ∨ strLtChars b a = true := by
  intro a
  induction a with
  | nil =>
    intro b
    cases b with
    | nil => exact Or.inl rfl
    | cons y ys => exact Or.inr (Or.inl (by simp [strLtChars]))
  | cons x xs ih =>
    intro b
    cases b with
    | nil => exact Or.inr (Or.inr (by simp [strLtChars]))
    | cons y ys =>
      by_cases hxy : x.toNat < y.toNat
      · exact Or.inr (Or.inl (by simp [strLtChars, hxy]))
      · by_cases hyx : y.toNat < x.toNat
        · exact Or.inr (Or.inr (by simp [strLtChars, hyx]))
        · have hx : x = y := char_toNat_inj (by omega)
          subst hx
          rcases ih ys with h | h | h
          · exact Or.inl (by rw [h])
          · exact Or.inr (Or.inl (by simp [strLtChars, h]))
          · exact Or.inr (Or.inr (by simp [strLtChars, h]))

theorem strLt_irrefl (s : String) : strLt s s = false := strLtChars_irrefl s.data

theorem strLt_trans {a b c : String} (hab : strLt a b = true)
    (hbc : strLt b c = true) : strLt a c = true := strLtChars_trans hab hbc

theorem strLt_ne {a b : String} (h : strLt a b = true) : a ≠ b := by
  intro he
  subst he
  rw [strLt_irrefl] at h
  exact Bool.noConfusion h

theorem strLt_total (a b : String) : a = b ∨ strLt a b = true ∨ strLt b a = true := by
  rcases strLtChars_total a.data b.data with h | h | h
  · exact Or.inl (by cases a; cases b; exact congrArg String.mk h)
  · exact Or.inr (Or.inl h)
  · exact Or.inr (Or.inr h)

theorem mem_putRecipient {r : CachedRecipient} : ∀ {store : RecipientStore}
    {y : CachedRecipient}, y ∈ putRecipient r store → y = r ∨ y ∈ store := by
  intro store
  induction store with
  | nil => intro y hy; simp [putRecipient] at hy; exact Or.inl hy
  | cons x xs ih =>
    intro y hy
    unfold putRecipient at hy
    by_cases h1 : r.id = x.id
    · rw [if_pos h1] at hy
      rcases List.mem_cons.1 hy with h | h
      · exact Or.inl h
      · exact Or.inr (List.mem_cons_of_mem x h)
    · rw [if_neg h1] at hy
      by_cases h2 : strLt r.id x.id
      · rw [if_pos h2] at hy
        rcases List.mem_cons.1 hy with h | h
        · exact Or.inl h
        · exact Or.inr h
      · rw [if_neg h2] at hy
        rcases List.mem_cons.1 hy with h | h
        · exact Or.inr (by simp [h])
        · rcases ih h with h3 | h3
          · exact Or.inl h3
          · exact Or.inr (List.mem_cons_of_mem x h3)

theorem putRecipient_sorted {r : CachedRecipient} : ∀ {store : RecipientStore},
    SortedById store → SortedById (putRecipient r store) := by
  intro store
  induction store with
  | nil => intro _; simp [putRecipient, SortedById]
  | cons x xs ih =>
    intro hs
    rw [SortedById, List.pairwise_cons] at hs
    unfold putRecipient
    by_cases h1 : r.id = x.id
    · rw [if_pos h1]
      rw [SortedById, List.pairwise_cons]
      exact ⟨fun y hy => by rw [h1]; exact hs.1 y hy, hs.2⟩
    · rw [if_neg h1]
      by_cases h2 : strLt r.id x.id
      · rw [if_pos h2]
        rw [SortedById, List.pairwise_cons]
        refine ⟨?_, List.pairwise_cons.2 hs⟩
        intro y hy
        rcases List.mem_cons.1 hy with h | h
        · subst h; exact h2
        · exact strLt_trans h2 (hs.1 y h)
      · rw [if_neg h2]
        rw [SortedById, List.pairwise_cons]
        refine ⟨?_, ih hs.2⟩
        intro y hy
        rcases mem_putRecipient hy with h | h
        · subst h
          rcases strLt_total y.id x.id with h3 | h3 | h3
          · exact absurd h3 h1
          · exact absurd h3 h2
          · exact h3
        · exact hs.1 y h

theorem filter_id_putRecipient {r : CachedRecipient} : ∀ {store : RecipientStore},
    SortedById store →
    (putRecipient r store).filter (fun x => x.id = r.id) = [r] := by
  intro store
  induction store with
  | nil => intro _; simp [putRecipient]
  | cons x xs ih =>
    intro hs
    rw [SortedById, List.pairwise_cons] at hs
    unfold putRecipient
    by_cases h1 : r.id = x.id
    · rw [if_pos h1]
      rw [List.filter_cons_of_pos (by simp)]
      rw [List.filter_eq_nil_iff.2 (by
        intro a ha
        have hlt := hs.1 a ha
        simp only [decide_eq_true_eq]
        intro haid
        exact strLt_ne hlt (by rw [haid, h1]))]
    · rw [if_neg h1]
      by_cases h2 : strLt r.id x.id
      · rw [if_pos h2]
        rw [List.filter_cons_of_pos (by simp)]
        rw [List.filter_cons_of_neg (by
          simp only [decide_eq_true_eq]
          exact fun he => h1 he.symm)]
        rw [List.filter_eq_nil_iff.2 (by
          intro a ha
          have hlt := hs.1 a ha
          simp only [decide_eq_true_eq]
          intro haid
          exact strLt_ne (strLt_trans h2 hlt) (by rw [haid]))]
      · rw [if_neg h2]
        rw [List.filter_cons_of_neg (by
          simp only [decide_eq_true_eq]
          exact fun he => h1 he.symm)]
        exact ih hs.2


theorem lookupRecipient_none_iff (store : RecipientStore) (pid : String) :
    getCachedRecipientByPaymentId store pid = none ↔
      ∀ x ∈ store, x.payment_id ≠ pid := by
  unfold getCachedRecipientByPaymentId
  rw [List.head?_eq_none_iff, List.filter_eq_nil_iff]
  constructor
  · intro h x hx
    simpa using h x hx
  · intro h x hx
    simpa using h x hx

theorem lookupRecipient_some_mem {store : RecipientStore} {pid : String}
    {x : CachedRecipient} (h : getCachedRecipientByPaymentId store pid = some x) :
    x ∈ store ∧ x.payment_id = pid := by
  unfold getCachedRecipientByPaymentId at h
  rw [List.head?_eq_some_iff] at h
  obtain ⟨ys, hys⟩ := h
  have hx : x ∈ store.filter (fun r => r.payment_id = pid) := by
    rw [hys]; exact List.mem_cons_self x ys
  rw [List.mem_filter] at hx
  exact ⟨hx.1, by simpa using hx.2⟩

/-- C7 counterexample: caching two records with the same payment
identifier `"p1"` under different internal ids (`recX` then `recY`)
leaves two records with that payment identifier in the store, and the
lookup returns the record cached at time 1 (`recX`'s), not the most
recently cached one (`recY`'s, cached at time 2). -/
theorem recipientCache_payment_id_counterexample :
    ¬ (((cacheRecipient (cacheRecipient [] recX 1) recY 2).filter
          (fun x => x.payment_id = "p1")).length ≤ 1) ∧
    getCachedRecipientByPaymentId (cacheRecipient (cacheRecipient [] recX 1) recY 2)
        "p1" =
      some { id := "x", user_id := "u1", display_name := none,
             payment_id := "p1", cached_at := 1 } := by
  constructor
  · decide
  · decide

/-- C7 (amended). The cached-recipients upsert is keyed by the record's
internal id, not its payment identifier: on a store in key order,
caching keeps key order and replaces exactly the record carrying the
same internal id (so at most one record exists per id, and re-caching
the same id is last-write-wins), while records sharing a payment
identifier under different ids coexist.  `lookupRecipient(paymentId)`
returns the first record in store key order whose payment identifier
matches — `none` exactly when no cached record carries that payment
identifier — rather than the most recently cached one. -/
theorem recipientCache_keyed_by_internal_id (store : RecipientStore)
    (r : NewRecipient) (now : Nat) (hs : SortedById store) :
    SortedById (cacheRecipient store r now) ∧
    (cacheRecipient store r now).filter (fun x => x.id = r.id) =
      [{ id := r.id, user_id := r.user_id, display_name := r.display_name,
         payment_id := r.payment_id, cached_at := now }] ∧
    (∀ pid, getCachedRecipientByPaymentId store pid = none ↔
      ∀ x ∈ store, x.payment_id ≠ pid) ∧
    (∀ pid x, getCachedRecipientByPaymentId store pid = some x →
      x ∈ store ∧ x.payment_id = pid) := by
  refine ⟨putRecipient_sorted hs,
    @filter_id_putRecipient
      ⟨r.id, r.user_id, r.display_name, r.payment_id, now⟩ store hs, ?_, ?_⟩
  · intro pid
    exact lookupRecipient_none_iff store pid
  · intro pid x h
    exact lookupRecipient_some_mem h

/-- C7 witness: caching `recY` into the singleton sorted store holding
`recX`'s record keeps key order, the id-keyed upsert holds, and the
lookup contracts hold on that store. -/
theorem recipientCache_keyed_by_internal_id_witness :
    SortedById (cacheRecipient (cacheRecipient [] recX 1) recY 2) ∧
    (cacheRecipient (cacheRecipient [] recX 1) recY 2).filter
        (fun x => x.id = recY.id) =
      [{ id := recY.id, user_id := recY.user_id, display_name := recY.display_name,
         payment_id := recY.payment_id, cached_at := 2 }] ∧
    (∀ pid, getCachedRecipientByPaymentId (cacheRecipient [] recX 1) pid = none ↔
      ∀ x ∈ cacheRecipient [] recX 1, x.payment_id ≠ pid) ∧
    (∀ pid x, getCachedRecipientByPaymentId (cacheRecipient [] recX 1) pid = some x →
      x ∈ cacheRecipient [] recX 1 ∧ x.payment_id = pid) :=
  recipientCache_keyed_by_internal_id (cacheRecipient [] recX 1) recY 2
    (by rw [SortedById]; decide)


/-! ### Identifier structure: `tx-${timestamp}-${hash fragment}` -/

theorem digitChar_ne_dash {n : Nat} (h : n < 10) : Nat.digitChar n ≠ '-' := by
  interval_cases n <;> decide

theorem digitChar_toNat {n : Nat} (h : n < 10) : (Nat.digitChar n).toNat = 48 + n := by
  interval_cases n <;> decide

theorem mem_digitsAux_ten_ne_dash : ∀ (fuel n : Nat) (c : Char),
    c ∈ digitsAux 10 fuel n → c ≠ '-' := by
  intro fuel
  induction fuel with
  | zero => intro n c hc; simp [digitsAux] at hc
  | succ f ih =>
    intro n c hc
    unfold digitsAux at hc
    by_cases h : n < 10
    · rw [if_pos h] at hc
      simp only [List.mem_singleton] at hc
      subst hc
      exact digitChar_ne_dash h
    · rw [if_neg h] at hc
      rcases List.mem_append.1 hc with h1 | h1
      · exact ih _ _ h1
      · simp only [List.mem_singleton] at h1
        subst h1
        exact digitChar_ne_dash (Nat.mod_lt _ (by omega))

theorem dash_not_mem_decChars (n : Nat) : '-' ∉ decChars n :=
  fun h => mem_digitsAux_ten_ne_dash _ _ _ h rfl

theorem decVal_append_digit (xs : List Char) (c : Char) :
    decVal (xs ++ [c]) =
      (10 * (decVal xs).1 + (c.toNat - 48), 10 * (decVal xs).2) := by
  induction xs with
  | nil => simp [decVal]
  | cons x xs ih =>
    rw [List.cons_append]
    show ((x.toNat - 48) * (decVal (xs ++ [c])).2 + (decVal (xs ++ [c])).1,
        10 * (decVal (xs ++ [c])).2) = _
    rw [ih, show decVal (x :: xs) =
      ((x.toNat - 48) * (decVal xs).2 + (decVal xs).1, 10 * (decVal xs).2) from rfl]
    simp only [Prod.mk.injEq]
    constructor
    · ring
    · ring

theorem decVal_digitsAux : ∀ fuel n, n < fuel →
    (decVal (digitsAux 10 fuel n)).1 = n := by
  intro fuel
  induction fuel with
  | zero => omega
  | succ f ih =>
    intro n h
    unfold digitsAux
    by_cases h10 : n < 10
    · rw [if_pos h10]
      simp [decVal, digitChar_toNat h10]
    · rw [if_neg h10]
      rw [decVal_append_digit]
      have hdiv : n / 10 < f := by
        have h2 : n / 10 < n := Nat.div_lt_self (by omega) (by omega)
        omega
      rw [ih (n / 10) hdiv, digitChar_toNat (Nat.mod_lt _ (by omega))]
      omega

theorem decChars_inj {t1 t2 : Nat} (h : decChars t1 = decChars t2) : t1 = t2 := by
  have h1 := decVal_digitsAux (t1 + 1) t1 (by omega)
  have h2 := decVal_digitsAux (t2 + 1) t2 (by omega)
  unfold decChars at h
  rw [h] at h1
  omega

theorem append_cons_inj {α : Type _} {c : α} : ∀ {a a' b b' : List α},
    c ∉ a → c ∉ a' → a ++ c :: b = a' ++ c :: b' → a = a' ∧ b = b' := by
  intro a
  induction a with
  | nil =>
    intro a' b b' _ ha' heq
    cases a' with
    | nil => simpa using heq
    | cons y ys =>
      simp only [List.nil_append, List.cons_append, List.cons.injEq] at heq
      exact absurd (heq.1 ▸ List.mem_cons_self y ys) ha'
  | cons x xs ih =>
    intro a' b b' ha ha' heq
    cases a' with
    | nil =>
      simp only [List.cons_append, List.nil_append, List.cons.injEq] at heq
      exact absurd (heq.1 ▸ List.mem_cons_self x xs) ha
    | cons y ys =>
      simp only [List.cons_append, List.cons.injEq] at heq
      have hxs := ih (fun hm => ha (List.mem_cons_of_mem x hm))
        (fun hm => ha' (heq.1 ▸ List.mem_cons_of_mem y hm)) heq.2
      exact ⟨by rw [heq.1, hxs.1], hxs.2⟩

theorem mkTxId_ne_of_timestamp_ne {t1 t2 : Nat} {h1 h2 : String}
    (hne : t1 ≠ t2) : mkTxId t1 h1 ≠ mkTxId t2 h2 := by
  intro heq
  unfold mkTxId at heq
  have hdata := congrArg String.data heq
  simp only [List.cons.injEq, true_and] at hdata
  obtain ⟨hd, -⟩ := append_cons_inj (dash_not_mem_decChars t1)
    (dash_not_mem_decChars t2) hdata
  exact hne (decChars_inj hd)

set_option maxRecDepth 8000 in
/-- C6 counterexample: two enqueues in the same millisecond (timestamp 5)
with the same content tuple produce the same identifier, and the second
`put` overwrites the first record — the store still holds one record. -/
theorem enqueue_id_reuse_counterexample :
    (addPendingTransaction (addPendingTransaction [] newTx1 "d1" 5).2
        newTx1 "d1" 5).1.id =
      (addPendingTransaction [] newTx1 "d1" 5).1.id ∧
    (addPendingTransaction (addPendingTransaction [] newTx1 "d1" 5).2
        newTx1 "d1" 5).2.length = 1 := by
  constructor
  · decide
  · decide

/-- C6 (amended). Identifiers are derived from the creation timestamp
and a hash fragment, so they are distinct — and an enqueue never
overwrites a previously persisted record — whenever the creation
timestamps differ; but two enqueues in the same millisecond with the
same (sender, receiver, amount, device) tuple reuse the identifier and
the later enqueue overwrites the earlier record. -/
theorem enqueue_id_fresh_across_timestamps (store : Store)
    (tx1 tx2 : NewTransaction) (d1 d2 : String) (t1 t2 : Nat) (hne : t1 ≠ t2) :
    (addPendingTransaction store tx1 d1 t1).1.id ≠
      (addPendingTransaction (addPendingTransaction store tx1 d1 t1).2
        tx2 d2 t2).1.id ∧
    (addPendingTransaction store tx1 d1 t1).1 ∈
      (addPendingTransaction (addPendingTransaction store tx1 d1 t1).2
        tx2 d2 t2).2 := by
  have hid : (addPendingTransaction store tx1 d1 t1).1.id ≠
      (addPendingTransaction (addPendingTransaction store tx1 d1 t1).2
        tx2 d2 t2).1.id :=
    mkTxId_ne_of_timestamp_ne hne
  exact ⟨hid, mem_putTx_of_ne (mem_putTx_self store _) hid⟩

/-- C6 amended-claim witness: enqueues at timestamps 5 and 7 get distinct
ids and the first record survives the second enqueue. -/
theorem enqueue_id_fresh_across_timestamps_witness :
    (addPendingTransaction [] newTx1 "d1" 5).1.id ≠
      (addPendingTransaction (addPendingTransaction [] newTx1 "d1" 5).2
        newTx2 "d2" 7).1.id ∧
    (addPendingTransaction [] newTx1 "d1" 5).1 ∈
      (addPendingTransaction (addPendingTransaction [] newTx1 "d1" 5).2
        newTx2 "d2" 7).2 :=
  enqueue_id_fresh_across_timestamps [] newTx1 newTx2 "d1" "d2" 5 7 (by decide)


/-! ### The guard, the counters, and the retry policy -/

theorem syncPendingTransactions_eq (env : Env) (store : Store) :
    syncPendingTransactions env ⟨store, false⟩ =
      ((syncBody env store).1, ⟨(syncBody env store).2.1, false⟩,
        (syncBody env store).2.2) := by
  unfold syncPendingTransactions
  rcases h : syncBody env store with ⟨res, s1, tr⟩
  rfl

/-- C3. A `runSync` invoked while a drain is in progress returns the zero
result at once, with the store untouched and an empty trace (no record
read or written, no observer notified); when a drain does start, the
`isSyncing` guard is `false` again after the call on every path — in
particular also when the pass aborts with a propagated exception, as
when `getPendingTransactions` itself rejects. -/
theorem runSync_guard (env : Env) (store : Store) :
    syncPendingTransactions env ⟨store, true⟩ = (.ok (0, 0), ⟨store, true⟩, []) ∧
    (syncPendingTransactions env ⟨store, false⟩).2.1.isSyncing = false ∧
    (env.listThrows = true →
      syncPendingTransactions env ⟨store, false⟩ =
        (.error (), ⟨store, false⟩, [.listPending])) := by
  refine ⟨rfl, ?_, ?_⟩
  · rw [syncPendingTransactions_eq]
  · intro hl
    rw [syncPendingTransactions_eq]
    unfold syncBody
    rw [if_pos hl]

/-- C3 witness: with an environment whose pending-list fetch rejects, the
guard bounce, the guard release, and the exception propagation all hold
on the store `[txA]`. -/
theorem runSync_guard_witness :
    syncPendingTransactions { happyEnv with listThrows := true } ⟨[txA], true⟩ =
      (.ok (0, 0), ⟨[txA], true⟩, []) ∧
    (syncPendingTransactions { happyEnv with listThrows := true }
      ⟨[txA], false⟩).2.1.isSyncing = false ∧
    syncPendingTransactions { happyEnv with listThrows := true } ⟨[txA], false⟩ =
      (.error (), ⟨[txA], false⟩, [.listPending]) :=
  ⟨(runSync_guard { happyEnv with listThrows := true } [txA]).1,
   (runSync_guard { happyEnv with listThrows := true } [txA]).2.1,
   (runSync_guard { happyEnv with listThrows := true } [txA]).2.2 rfl⟩

theorem syncLoop_counts (env : Env) : ∀ (txs : List PendingTransaction)
    (store : Store) (synced failed sy fa : Nat) (s1 : Store) (tr : Trace),
    syncLoop env txs store synced failed = (.ok (sy, fa), s1, tr) →
    sy + fa = synced + failed + txs.length := by
  intro txs
  induction txs with
  | nil =>
    intro store synced failed sy fa s1 tr h
    simp only [syncLoop, Prod.mk.injEq, Except.ok.injEq] at h
    obtain ⟨⟨h1, h2⟩, -, -⟩ := h
    simp only [List.length_nil]
    omega
  | cons tx rest ih =>
    intro store synced failed sy fa s1 tr h
    unfold syncLoop at h
    rcases hrec : syncRecord env tx store with ⟨res, s2, ev⟩
    rw [hrec] at h
    cases res with
    | error e =>
      simp only [Prod.mk.injEq] at h
      exact absurd h.1 (by simp)
    | ok b =>
      cases b with
      | true =>
        dsimp only at h
        rcases hl : syncLoop env rest s2 (synced + 1) failed with ⟨res2, s3, tr2⟩
        rw [hl] at h
        simp only [Prod.mk.injEq] at h
        rw [h.1] at hl
        have := ih s2 (synced + 1) failed sy fa s3 tr2 hl
        simp only [List.length_cons]
        omega
      | false =>
        dsimp only at h
        rcases hl : syncLoop env rest s2 synced (failed + 1) with ⟨res2, s3, tr2⟩
        rw [hl] at h
        simp only [Prod.mk.injEq] at h
        rw [h.1] at hl
        have := ih s2 synced (failed + 1) sy fa s3 tr2 hl
        simp only [List.length_cons]
        omega

/-- C10. A drain pass that starts (guard free) and completes without a
propagated exception counts every initially fetched pending record in
exactly one of the two counters: `synced + failed` equals the number of
records returned by the initial `getPendingTransactions` fetch. -/
theorem runSync_counts (env : Env) (store : Store) (sy fa : Nat)
    (st1 : EngineState) (tr : Trace)
    (h : syncPendingTransactions env ⟨store, false⟩ = (.ok (sy, fa), st1, tr)) :
    sy + fa = (getPendingTransactions store).length := by
  rw [syncPendingTransactions_eq] at h
  simp only [Prod.mk.injEq] at h
  obtain ⟨hres, -, -⟩ := h
  unfold syncBody at hres
  by_cases hl : env.listThrows
  · rw [if_pos hl] at hres
    exact absurd hres (by simp)
  · rw [if_neg hl] at hres
    by_cases hz : (getPendingTransactions store).length = 0
    · rw [if_pos hz] at hres
      simp only [Except.ok.injEq, Prod.mk.injEq] at hres
      omega
    · rw [if_neg hz] at hres
      rcases hlp : syncLoop env (getPendingTransactions store) store 0 0 with
        ⟨res2, s3, tr2⟩
      rw [hlp] at hres
      cases res2 with
      | error e => exact absurd hres (by simp)
      | ok p =>
        rcases p with ⟨a, b⟩
        simp only [Except.ok.injEq, Prod.mk.injEq] at hres
        have := syncLoop_counts env (getPendingTransactions store) store 0 0
          a b s3 tr2 hlp
        omega


set_option maxRecDepth 8000 in
/-- C10 witness: on the store `[txA, txB]` (one pending record, one
failed) under the all-success environment, the drain returns
`(1, 0)` and `1 + 0` equals the single fetched pending record. -/
theorem runSync_counts_witness :
    1 + 0 = (getPendingTransactions [txA, txB]).length :=
  runSync_counts happyEnv [txA, txB] 1 0 ⟨[txB], false⟩
    [.listPending, .notify .syncing 1, .updStatus "a" .syncing false,
     .dupCheck "h1", .processTx "a" "h1", .deleteTx "a", .notify .success 1]
    rfl


theorem updateTransactionStatus_ids (store : Store) (id : String) (st : Status)
    (inc : Bool) (hnd : (store.map (fun r => r.id)).Nodup) :
    (updateTransactionStatus store id st inc).map (fun r => r.id) =
      store.map (fun r => r.id) := by
  rw [updateTransactionStatus_eq_map store id st inc hnd, List.map_map]
  apply List.map_congr_left
  intro a _
  by_cases h : a.id = id <;> simp [h]

theorem mem_update_self {store : Store} {tx : PendingTransaction}
    (hnd : (store.map (fun r => r.id)).Nodup) (hmem : tx ∈ store)
    (st : Status) (inc : Bool) :
    ({ tx with status := st,
               retryCount := if inc then tx.retryCount + 1 else tx.retryCount } :
      PendingTransaction) ∈ updateTransactionStatus store tx.id st inc := by
  rw [updateTransactionStatus_eq_map store tx.id st inc hnd]
  exact List.mem_map.2 ⟨tx, hmem, by simp⟩

theorem getTx_after_update {store : Store} {tx : PendingTransaction}
    (hnd : (store.map (fun r => r.id)).Nodup) (hmem : tx ∈ store)
    (st : Status) (inc : Bool) :
    getTx (updateTransactionStatus store tx.id st inc) tx.id =
      some { tx with status := st,
                     retryCount := if inc then tx.retryCount + 1 else tx.retryCount } := by
  have hnd2 : ((updateTransactionStatus store tx.id st inc).map
      (fun r => r.id)).Nodup := by
    rw [updateTransactionStatus_ids store tx.id st inc hnd]
    exact hnd
  exact getTx_eq_some_of_mem hnd2 (mem_update_self hnd hmem st inc)

/-- `syncRecord` on a record whose duplicate check is negative and whose
remote process call fails (no awaited call rejecting): the record is
counted as failed and the catch branch bumps the retry count with the
threshold status. -/
theorem syncRecord_remote_failure (env : Env) (tx : PendingTransaction)
    (store : Store)
    (hms : env.markSyncingThrows tx.id = false)
    (hdt : env.dupThrows tx.hash = false)
    (hdp : env.dup tx.hash = false)
    (hpr : env.process tx = false)
    (hcu : env.catchUpdateThrows tx.id = false) :
    syncRecord env tx store =
      (.ok false,
       updateTransactionStatus (updateTransactionStatus store tx.id .syncing false)
         tx.id (if tx.retryCount ≥ 2 then .failed else .pending) true,
       [.updStatus tx.id .syncing false, .dupCheck tx.hash,
        .processTx tx.id tx.hash,
        .updStatus tx.id (if tx.retryCount ≥ 2 then .failed else .pending) true]) := by
  unfold syncRecord syncCatch
  simp [hms, hdt, hdp, hpr, hcu]

/-- C2. The retry policy: when a pending record's remote call fails in a
drain (duplicate check negative, process call errors, no storage
rejection), the engine counts it as failed, bumps its retry count by
one, and sets its status to `failed` when the retry count had already
reached 2 (the third consecutive failure) and back to `pending`
otherwise (first or second failure); `getPendingTransactions` returns
exactly the `pending` records, so a `failed` record is never fetched for
another drain while a `pending` one is fetched by the next drain. -/
theorem retry_policy :
    (∀ (env : Env) (tx : PendingTransaction) (store : Store),
      (store.map (fun r => r.id)).Nodup → tx ∈ store →
      env.markSyncingThrows tx.id = false →
      env.dupThrows tx.hash = false →
      env.dup tx.hash = false →
      env.process tx = false →
      env.catchUpdateThrows tx.id = false →
      (syncRecord env tx store).1 = .ok false ∧
      getTx (syncRecord env tx store).2.1 tx.id =
        some { tx with
          status := if tx.retryCount ≥ 2 then .failed else .pending,
          retryCount := tx.retryCount + 1 }) ∧
    (∀ (store : Store) (r : PendingTransaction),
      r ∈ getPendingTransactions store ↔ r ∈ store ∧ r.status = .pending) := by
  constructor
  · intro env tx store hnd hmem hms hdt hdp hpr hcu
    rw [syncRecord_remote_failure env tx store hms hdt hdp hpr hcu]
    refine ⟨rfl, ?_⟩
    have hnd1 : ((updateTransactionStatus store tx.id .syncing false).map
        (fun r => r.id)).Nodup := by
      rw [updateTransactionStatus_ids store tx.id .syncing false hnd]
      exact hnd
    have hmem1 : ({ tx with status := Status.syncing } : PendingTransaction) ∈
        updateTransactionStatus store tx.id .syncing false := by
      have := mem_update_self hnd hmem .syncing false
      simpa using this
    have := getTx_after_update hnd1 hmem1
      (if tx.retryCount ≥ 2 then .failed else .pending) true
    simpa using this
  · intro store r
    unfold getPendingTransactions
    rw [List.mem_filter]
    simp

/-- C2 witness: in a store holding the pending records `txA` (no prior
failures) and `txD` (two prior failures) under an environment whose
process call always fails, `txA` goes back to `pending` with retry count
1 and `txD` becomes `failed` with retry count 3; the failed record `txB`
is not fetched by `getPendingTransactions` while the pending `txA` is. -/
theorem retry_policy_witness :
    (getTx (syncRecord { happyEnv with process := fun _ => false } txA
        [txA, txD]).2.1 txA.id =
      some { txA with status := .pending, retryCount := 1 }) ∧
    (getTx (syncRecord { happyEnv with process := fun _ => false } txD
        [txA, txD]).2.1 txD.id =
      some { txD with status := .failed, retryCount := 3 }) ∧
    ¬ txB ∈ getPendingTransactions [txA, txB] ∧
    txA ∈ getPendingTransactions [txA, txB] := by
  have h1 := (retry_policy.1 { happyEnv with process := fun _ => false } txA
    [txA, txD] (by decide) (by decide) rfl rfl rfl rfl rfl).2
  have h2 := (retry_policy.1 { happyEnv with process := fun _ => false } txD
    [txA, txD] (by decide) (by decide) rfl rfl rfl rfl rfl).2
  have h3 := (retry_policy.2 [txA, txB] txB)
  have h4 := (retry_policy.2 [txA, txB] txA)
  refine ⟨by simpa using h1, by simpa using h2, ?_, ?_⟩
  · rw [h3]
    decide
  · rw [h4]
    decide


/-! ### Ordering of the duplicate check and the process call (C1) -/

theorem dbp_append {xs ys : Trace} (hx : DupBeforeProcess xs)
    (hy : DupBeforeProcess ys) : DupBeforeProcess (xs ++ ys) := by
  intro k id h hk
  by_cases hlt : k < xs.length
  · rw [List.getElem?_append_left hlt] at hk
    obtain ⟨j, hj, hje⟩ := hx k id h hk
    exact ⟨j, hj, by rw [List.getElem?_append_left (by omega)]; exact hje⟩
  · push_neg at hlt
    rw [List.getElem?_append_right hlt] at hk
    obtain ⟨j, hj, hje⟩ := hy _ id h hk
    refine ⟨xs.length + j, by omega, ?_⟩
    rw [List.getElem?_append_right (by omega)]
    simpa [Nat.add_sub_cancel_left] using hje

theorem dbp_of_no_process {tr : Trace}
    (h : ∀ id hh, Event.processTx id hh ∉ tr) : DupBeforeProcess tr :=
  fun k id hh hk => absurd (List.getElem?_mem hk) (h id hh)

theorem dbp_shape (a b : Trace) (h : String)
    (ha : ∀ id hh, Event.processTx id hh ∉ a)
    (hb : ∀ id hh, Event.processTx id hh ∈ b → hh = h) :
    DupBeforeProcess (a ++ .dupCheck h :: b) := by
  intro k id hh hk
  have hmem := List.getElem?_mem hk
  rcases List.mem_append.1 hmem with hma | hmb
  · exact absurd hma (ha id hh)
  · rcases List.mem_cons.1 hmb with heq | hmb1
    · exact absurd heq (by simp)
    · have hhh := hb id hh hmb1
      subst hhh
      refine ⟨a.length, ?_, ?_⟩
      · rcases Nat.lt_trichotomy k a.length with hlt | hke | hgt
        · rw [List.getElem?_append_left hlt] at hk
          exact absurd (List.getElem?_mem hk) (ha id hh)
        · subst hke
          rw [List.getElem?_append_right (Nat.le_refl _)] at hk
          simp at hk
        · exact hgt
      · rw [List.getElem?_append_right (Nat.le_refl _)]
        simp

theorem dbp_record_trace (u : Event) (h : String) (rest : Trace)
    (hu : ∀ id hh, u ≠ Event.processTx id hh)
    (hrest : ∀ id hh, Event.processTx id hh ∈ rest → hh = h) :
    DupBeforeProcess (u :: Event.dupCheck h :: rest) :=
  dbp_shape [u] rest h
    (fun id hh hm => hu id hh (Eq.symm (by simpa using hm))) hrest

theorem dbp_syncRecord (env : Env) (tx : PendingTransaction) (store : Store) :
    DupBeforeProcess (syncRecord env tx store).2.2 := by
  unfold syncRecord syncCatch
  by_cases hms : env.markSyncingThrows tx.id = true
  · rw [if_pos hms]
    try dsimp only
    by_cases hcu : env.catchUpdateThrows tx.id = true
    · rw [if_pos hcu]
      exact dbp_of_no_process (by intro id hh hm; simp at hm)
    · rw [if_neg hcu]
      exact dbp_of_no_process (by intro id hh hm; simp at hm)
  · rw [if_neg hms]
    try dsimp only
    by_cases hdt : env.dupThrows tx.hash = true
    · rw [if_pos hdt]
      try dsimp only
      by_cases hcu : env.catchUpdateThrows tx.id = true
      · rw [if_pos hcu]
        exact dbp_record_trace _ tx.hash _ (fun id hh => by simp)
          (by intro id hh hm; simp at hm <;> tauto)
      · rw [if_neg hcu]
        exact dbp_record_trace _ tx.hash _ (fun id hh => by simp)
          (by intro id hh hm; simp at hm <;> tauto)
    · rw [if_neg hdt]
      by_cases hdp : env.dup tx.hash = true
      · rw [if_pos hdp]
        try dsimp only
        by_cases hdel : env.deleteThrows tx.id = true
        · rw [if_pos hdel]
          try dsimp only
          by_cases hcu : env.catchUpdateThrows tx.id = true
          · rw [if_pos hcu]
            exact dbp_record_trace _ tx.hash _ (fun id hh => by simp)
              (by intro id hh hm; simp at hm <;> tauto)
          · rw [if_neg hcu]
            exact dbp_record_trace _ tx.hash _ (fun id hh => by simp)
              (by intro id hh hm; simp at hm <;> tauto)
        · rw [if_neg hdel]
          exact dbp_record_trace _ tx.hash _ (fun id hh => by simp)
            (by intro id hh hm; simp at hm <;> tauto)
      · rw [if_neg hdp]
        try dsimp only
        by_cases hpr : env.process tx = true
        · rw [if_pos hpr]
          try dsimp only
          by_cases hdel : env.deleteThrows tx.id = true
          · rw [if_pos hdel]
            try dsimp only
            by_cases hcu : env.catchUpdateThrows tx.id = true
            · rw [if_pos hcu]
              exact dbp_record_trace _ tx.hash _ (fun id hh => by simp)
                (by intro id hh hm; simp at hm <;> tauto)
            · rw [if_neg hcu]
              exact dbp_record_trace _ tx.hash _ (fun id hh => by simp)
                (by intro id hh hm; simp at hm <;> tauto)
          · rw [if_neg hdel]
            exact dbp_record_trace _ tx.hash _ (fun id hh => by simp)
              (by intro id hh hm; simp at hm <;> tauto)
        · rw [if_neg hpr]
          try dsimp only
          by_cases hcu : env.catchUpdateThrows tx.id = true
          · rw [if_pos hcu]
            exact dbp_record_trace _ tx.hash _ (fun id hh => by simp)
              (by intro id hh hm; simp at hm <;> tauto)
          · rw [if_neg hcu]
            exact dbp_record_trace _ tx.hash _ (fun id hh => by simp)
              (by intro id hh hm; simp at hm <;> tauto)

theorem dbp_syncLoop (env : Env) : ∀ (txs : List PendingTransaction)
    (store : Store) (synced failed : Nat),
    DupBeforeProcess (syncLoop env txs store synced failed).2.2 := by
  intro txs
  induction txs with
  | nil =>
    intro store synced failed
    exact dbp_of_no_process (by intro id hh hm; simp [syncLoop] at hm)
  | cons tx rest ih =>
    intro store synced failed
    unfold syncLoop
    rcases hrec : syncRecord env tx store with ⟨res, s2, ev⟩
    have hev : DupBeforeProcess ev := by
      have := dbp_syncRecord env tx store
      rw [hrec] at this
      exact this
    cases res with
    | error e => exact hev
    | ok b =>
      cases b with
      | true =>
        try dsimp only
        rcases hl : syncLoop env rest s2 (synced + 1) failed with ⟨res2, s3, tr2⟩
        have h2 := ih s2 (synced + 1) failed
        rw [hl] at h2
        exact dbp_append hev h2
      | false =>
        try dsimp only
        rcases hl : syncLoop env rest s2 synced (failed + 1) with ⟨res2, s3, tr2⟩
        have h2 := ih s2 synced (failed + 1)
        rw [hl] at h2
        exact dbp_append hev h2


theorem dbp_syncBody (env : Env) (store : Store) :
    DupBeforeProcess (syncBody env store).2.2 := by
  unfold syncBody
  by_cases hl : env.listThrows = true
  · rw [if_pos hl]
    exact dbp_of_no_process (by intro id hh hm; simp at hm)
  · rw [if_neg hl]
    by_cases hz : (getPendingTransactions store).length = 0
    · rw [if_pos hz]
      exact dbp_of_no_process (by intro id hh hm; simp at hm)
    · rw [if_neg hz]
      try dsimp only
      rcases hlp : syncLoop env (getPendingTransactions store) store 0 0 with
        ⟨res2, s3, tr2⟩
      have h2 := dbp_syncLoop env (getPendingTransactions store) store 0 0
      rw [hlp] at h2
      cases res2 with
      | error e =>
        exact dbp_append (dbp_of_no_process (by intro id hh hm; simp at hm)) h2
      | ok p =>
        rcases p with ⟨a, b⟩
        refine dbp_append (dbp_append (dbp_of_no_process ?_) h2)
          (dbp_of_no_process ?_)
        · intro id hh hm
          simp at hm
        · intro id hh hm
          rcases List.mem_append.1 hm with h | h <;> split at h <;> simp at h

/-- `syncRecord` on a record whose duplicate check is positive (and no
awaited call rejects): mark syncing, check, delete, count as synced —
the process RPC is never reached. -/
theorem syncRecord_dup_found (env : Env) (tx : PendingTransaction)
    (store : Store)
    (hdp : env.dup tx.hash = true)
    (hms : env.markSyncingThrows tx.id = false)
    (hdt : env.dupThrows tx.hash = false)
    (hdel : env.deleteThrows tx.id = false) :
    syncRecord env tx store =
      (.ok true,
       deleteTransaction (updateTransactionStatus store tx.id .syncing false)
         tx.id,
       [.updStatus tx.id .syncing false, .dupCheck tx.hash,
        .deleteTx tx.id]) := by
  unfold syncRecord
  simp [hms, hdt, hdp, hdel]

/-- C1. In every drain pass, any `process_transaction` invocation for a
record is preceded in the trace by a remote duplicate check for that
record's integrity hash; and when the duplicate check reports the hash
as existing (and no storage call rejects), the engine deletes the local
record (no record with its id remains), increments the success counter,
emits no process call for that record, and moves on to the rest of the
pending list. -/
theorem dedup_check_precedes_process :
    (∀ (env : Env) (s : EngineState),
      DupBeforeProcess (syncPendingTransactions env s).2.2) ∧
    (∀ (env : Env) (tx : PendingTransaction) (store : Store)
        (rest : List PendingTransaction) (synced failed : Nat),
      env.dup tx.hash = true →
      env.markSyncingThrows tx.id = false →
      env.dupThrows tx.hash = false →
      env.deleteThrows tx.id = false →
      (∀ r ∈ (syncRecord env tx store).2.1, r.id ≠ tx.id) ∧
      (∀ id hh, Event.processTx id hh ∉ (syncRecord env tx store).2.2) ∧
      syncLoop env (tx :: rest) store synced failed =
        ((syncLoop env rest
            (deleteTransaction
              (updateTransactionStatus store tx.id .syncing false) tx.id)
            (synced + 1) failed).1,
         (syncLoop env rest
            (deleteTransaction
              (updateTransactionStatus store tx.id .syncing false) tx.id)
            (synced + 1) failed).2.1,
         [.updStatus tx.id .syncing false, .dupCheck tx.hash, .deleteTx tx.id]
           ++ (syncLoop env rest
                (deleteTransaction
                  (updateTransactionStatus store tx.id .syncing false) tx.id)
                (synced + 1) failed).2.2)) := by
  constructor
  · intro env s
    unfold syncPendingTransactions
    by_cases hg : s.isSyncing = true
    · rw [if_pos hg]
      exact dbp_of_no_process (by intro id hh hm; simp at hm)
    · rw [if_neg hg]
      rcases hb : syncBody env s.store with ⟨res, s1, tr⟩
      have := dbp_syncBody env s.store
      rw [hb] at this
      exact this
  · intro env tx store rest synced failed hdp hms hdt hdel
    have hrec := syncRecord_dup_found env tx store hdp hms hdt hdel
    refine ⟨?_, ?_, ?_⟩
    · rw [hrec]
      intro r hr
      unfold deleteTransaction at hr
      rw [List.mem_filter] at hr
      simpa using hr.2
    · rw [hrec]
      intro id hh hm
      simp at hm
    · rcases hl : syncLoop env rest
        (deleteTransaction
          (updateTransactionStatus store tx.id .syncing false) tx.id)
        (synced + 1) failed with ⟨res2, s3, tr2⟩
      unfold syncLoop
      rw [hrec]
      try dsimp only
      rw [hl]

set_option maxRecDepth 8000 in
/-- C1 witness: with a remote ledger already holding `txA`'s hash, the
drain of `[txA]` keeps its trace dup-check-first, removes the record,
counts it as synced, and never calls the process RPC for it. -/
theorem dedup_check_precedes_process_witness :
    DupBeforeProcess (syncPendingTransactions
      { happyEnv with dup := fun _ => true } ⟨[txA], false⟩).2.2 ∧
    ((∀ r ∈ (syncRecord { happyEnv with dup := fun _ => true } txA
        [txA]).2.1, r.id ≠ txA.id) ∧
      (∀ id hh, Event.processTx id hh ∉
        (syncRecord { happyEnv with dup := fun _ => true } txA [txA]).2.2) ∧
      syncLoop { happyEnv with dup := fun _ => true } [txA] [txA] 0 0 =
        ((syncLoop { happyEnv with dup := fun _ => true } []
            (deleteTransaction
              (updateTransactionStatus [txA] txA.id .syncing false) txA.id)
            (0 + 1) 0).1,
         (syncLoop { happyEnv with dup := fun _ => true } []
            (deleteTransaction
              (updateTransactionStatus [txA] txA.id .syncing false) txA.id)
            (0 + 1) 0).2.1,
         [.updStatus txA.id .syncing false, .dupCheck txA.hash,
          .deleteTx txA.id]
           ++ (syncLoop { happyEnv with dup := fun _ => true } []
                (deleteTransaction
                  (updateTransactionStatus [txA] txA.id .syncing false) txA.id)
                (0 + 1) 0).2.2)) :=
  ⟨dedup_check_precedes_process.1 { happyEnv with dup := fun _ => true }
      ⟨[txA], false⟩,
   dedup_check_precedes_process.2 { happyEnv with dup := fun _ => true }
      txA [txA] [] 0 0 rfl rfl rfl rfl⟩

end OfflinePay
